import Mathlib

/-!
# Verification of the sprite_splitter core pipeline

Shallow embedding of `src/utils/imageProcessor.ts`, the processing
orchestration of `App.tsx`, and `src/services/geminiService.ts`,
with proofs about the merge fixpoint, the region detector, the
compositor, background removal and the naming queue.

Conventions:
* JS `number` pixel coordinates and box fields are embedded as `Int`
  (all arithmetic in the sources stays integral on these paths).
* Raster pixel data (a `Uint8ClampedArray`) is a flat `List Nat` of
  RGBA bytes, row-major, as in the source.
* `Math.sqrt(d2) <= tolerance` on nonnegative integers is rendered
  exactly as `0 ≤ tolerance ∧ d2 ≤ tolerance²`: for the integer
  tolerances the UI produces, the correctly rounded double sqrt
  compares to `tolerance` exactly as the real square root does.
-/

/-- `BoundingBox` from `src/types.ts`: integer `x`, `y`, `width`, `height`. -/
structure Box where
  x : Int
  y : Int
  width : Int
  height : Int
deriving DecidableEq

/-- `doBoxesIntersect` from `src/utils/imageProcessor.ts` (strict area overlap). -/
def doBoxesIntersect (a b : Box) : Bool :=
  decide (a.x < b.x + b.width) &&
  decide (a.x + a.width > b.x) &&
  decide (a.y < b.y + b.height) &&
  decide (a.y + a.height > b.y)

/-- The merge body of `mergeOverlappingBoxes`: bounding union of two boxes
(min of origins, max of extents). -/
def unionBox (b1 b2 : Box) : Box :=
  let minX := min b1.x b2.x
  let minY := min b1.y b2.y
  let maxX := max (b1.x + b1.width) (b2.x + b2.width)
  let maxY := max (b1.y + b1.height) (b2.y + b2.height)
  { x := minX, y := minY, width := maxX - minX, height := maxY - minY }

/-- `removeFirstIntersecting a l` scans `l` left to right for the first box
intersecting `a` (the inner `j` loop of `mergeOverlappingBoxes`), returning it
together with the list without that occurrence. -/
def removeFirstIntersecting (a : Box) : List Box → Option (Box × List Box)
  | [] => none
  | b :: rest =>
    if doBoxesIntersect a b then some (b, rest)
    else
      match removeFirstIntersecting a rest with
      | some (c, rest') => some (c, b :: rest')
      | none => none

/-- One pass of the `while (changed)` loop of `mergeOverlappingBoxes`: find the
first intersecting pair `(i, j)` with `i < j` in lexicographic scan order,
replace box `i` by the union and drop box `j` (the `splice`), then report the
new list; `none` when a full scan finds no intersecting pair. -/
def mergeStep : List Box → Option (List Box)
  | [] => none
  | a :: rest =>
    match removeFirstIntersecting a rest with
    | some (b, rest') => some (unionBox a b :: rest')
    | none =>
      match mergeStep rest with
      | some r => some (a :: r)
      | none => none

/-- The `while (changed)` loop: iterate `mergeStep` to its fixpoint. Each step
shortens the list by one, so `boxes.length` steps of fuel always reach the
fixpoint (proved below in `mergeStep_mergeLoop`). -/
def mergeLoop : Nat → List Box → List Box
  | 0, l => l
  | n + 1, l =>
    match mergeStep l with
    | some l' => mergeLoop n l'
    | none => l

/-- `mergeOverlappingBoxes` from `src/utils/imageProcessor.ts`. -/
def mergeOverlappingBoxes (boxes : List Box) : List Box :=
  mergeLoop boxes.length boxes

example : mergeOverlappingBoxes [⟨0,0,2,2⟩, ⟨1,0,1,10⟩, ⟨0,5,1,1⟩] = [⟨0,0,2,10⟩] := by decide

example : mergeOverlappingBoxes [⟨0,0,2,2⟩, ⟨10,10,3,3⟩] = [⟨0,0,2,2⟩, ⟨10,10,3,3⟩] := by decide

/-! ## Basic geometry of overlap, containment and union -/

/-- Strict-area overlap as a proposition. -/
def Overlap (a b : Box) : Prop := doBoxesIntersect a b = true

instance (a b : Box) : Decidable (Overlap a b) := by
  unfold Overlap; infer_instance

lemma overlap_iff {a b : Box} : Overlap a b ↔
    a.x < b.x + b.width ∧ a.x + a.width > b.x ∧
    a.y < b.y + b.height ∧ a.y + a.height > b.y := by
  simp [Overlap, doBoxesIntersect, and_assoc]

lemma overlap_symm {a b : Box} (h : Overlap a b) : Overlap b a := by
  rw [overlap_iff] at h ⊢; omega

/-- Geometric containment of `inner` inside `outer`. -/
def Contains (outer inner : Box) : Prop :=
  outer.x ≤ inner.x ∧ outer.y ≤ inner.y ∧
  inner.x + inner.width ≤ outer.x + outer.width ∧
  inner.y + inner.height ≤ outer.y + outer.height

lemma contains_refl (b : Box) : Contains b b := by
  simp [Contains]

lemma contains_trans {a b c : Box} (h1 : Contains a b) (h2 : Contains b c) :
    Contains a c := by
  simp only [Contains] at *; omega

lemma unionBox_contains_left (a b : Box) : Contains (unionBox a b) a := by
  simp only [Contains, unionBox]; omega

lemma unionBox_contains_right (a b : Box) : Contains (unionBox a b) b := by
  simp only [Contains, unionBox]; omega

/-- Overlap is monotone under enlarging either box. -/
lemma overlap_mono {a b a' b' : Box} (h : Overlap a b)
    (ha : Contains a' a) (hb : Contains b' b) : Overlap a' b' := by
  rw [overlap_iff] at h ⊢
  simp only [Contains] at ha hb
  omega

lemma box_eq_of_corners {b1 b2 : Box} (hx : b1.x = b2.x) (hy : b1.y = b2.y)
    (hxw : b1.x + b1.width = b2.x + b2.width)
    (hyh : b1.y + b1.height = b2.y + b2.height) : b1 = b2 := by
  cases b1; cases b2
  simp only [Box.mk.injEq] at *
  omega

lemma unionBox_comm (a b : Box) : unionBox a b = unionBox b a := by
  apply box_eq_of_corners <;> simp only [unionBox] <;> omega

lemma unionBox_right_swap (a b c : Box) :
    unionBox (unionBox a b) c = unionBox (unionBox a c) b := by
  apply box_eq_of_corners <;> simp only [unionBox] <;> omega

lemma unionBox_left_rotate (a b c : Box) :
    unionBox (unionBox a b) c = unionBox (unionBox b c) a := by
  apply box_eq_of_corners <;> simp only [unionBox] <;> omega

lemma unionBox_outer_swap (a b c : Box) :
    unionBox (unionBox a b) c = unionBox (unionBox c b) a := by
  apply box_eq_of_corners <;> simp only [unionBox] <;> omega

/-! ## The union-step rewriting system on multisets of boxes

`mergeOverlappingBoxes` repeatedly replaces the first two strictly
overlapping boxes by their bounding union.  Viewed on the multiset of
boxes, each iteration of the `while` loop performs one `MStep`.  The
relation has the diamond property and every step shrinks the multiset by
one, so normal forms are unique — this settles order-insensitivity. -/

/-- One union step on the multiset of boxes: replace two strictly
overlapping boxes by their bounding union. -/
def MStep (m m' : Multiset Box) : Prop :=
  ∃ a b rest, Overlap a b ∧ m = a ::ₘ b ::ₘ rest ∧ m' = unionBox a b ::ₘ rest

/-- A merged form: no two boxes of the multiset strictly overlap, so no
union step applies. -/
def MergedForm (m : Multiset Box) : Prop := ∀ m', ¬ MStep m m'

lemma MStep.card_succ {m m' : Multiset Box} (h : MStep m m') :
    m'.card + 1 = m.card := by
  obtain ⟨a, b, rest, -, rfl, rfl⟩ := h
  simp

lemma MStep.cons {x : Box} {m m' : Multiset Box} (h : MStep m m') :
    MStep (x ::ₘ m) (x ::ₘ m') := by
  obtain ⟨a, b, rest, hab, rfl, rfl⟩ := h
  refine ⟨a, b, x ::ₘ rest, hab, ?_, ?_⟩
  · rw [Multiset.cons_swap x a, Multiset.cons_swap x b]
  · rw [Multiset.cons_swap x (unionBox a b)]

lemma removeFirstIntersecting_some {a : Box} :
    ∀ {l : List Box} {b : Box} {l' : List Box},
      removeFirstIntersecting a l = some (b, l') →
      Overlap a b ∧ l.Perm (b :: l')
  | [], _, _, h => by simp [removeFirstIntersecting] at h
  | c :: rest, b, l', h => by
    rw [removeFirstIntersecting] at h
    by_cases hc : doBoxesIntersect a c
    · rw [if_pos hc] at h
      simp only [Option.some.injEq, Prod.mk.injEq] at h
      obtain ⟨rfl, rfl⟩ := h
      exact ⟨hc, List.Perm.refl _⟩
    · rw [if_neg hc] at h
      match hrec : removeFirstIntersecting a rest with
      | some (c', rest') =>
        rw [hrec] at h
        simp only [Option.some.injEq, Prod.mk.injEq] at h
        obtain ⟨rfl, rfl⟩ := h
        obtain ⟨hov, hm⟩ := removeFirstIntersecting_some hrec
        exact ⟨hov, ((hm.cons c).trans (List.Perm.swap c' c rest'))⟩
      | none => rw [hrec] at h; exact absurd h (by simp)

lemma removeFirstIntersecting_none {a : Box} :
    ∀ {l : List Box}, removeFirstIntersecting a l = none →
      ∀ b ∈ l, ¬ Overlap a b
  | [], _, b, hb => by simp at hb
  | c :: rest, h, b, hb => by
    rw [removeFirstIntersecting] at h
    by_cases hc : doBoxesIntersect a c
    · rw [if_pos hc] at h; exact absurd h (by simp)
    · rw [if_neg hc] at h
      match hrec : removeFirstIntersecting a rest with
      | some (c', rest') => rw [hrec] at h; exact absurd h (by simp)
      | none =>
        rcases List.mem_cons.mp hb with rfl | hbr
        · exact fun hov => hc hov
        · exact removeFirstIntersecting_none hrec b hbr

lemma mergeStep_some : ∀ {l l' : List Box}, mergeStep l = some l' →
    MStep (l : Multiset Box) (l' : Multiset Box)
  | [], _, h => by simp [mergeStep] at h
  | a :: rest, l', h => by
    rw [mergeStep] at h
    match hrem : removeFirstIntersecting a rest with
    | some (b, rest') =>
      rw [hrem] at h
      simp only [Option.some.injEq] at h
      subst h
      obtain ⟨hov, hperm⟩ := removeFirstIntersecting_some hrem
      refine ⟨a, b, (rest' : Multiset Box), hov, ?_, ?_⟩
      · have h2 : (rest : Multiset Box) = b ::ₘ (rest' : Multiset Box) := by
          rw [Multiset.cons_coe]; exact Multiset.coe_eq_coe.mpr hperm
        rw [← Multiset.cons_coe, h2]
      · exact (Multiset.cons_coe _ _).symm
    | none =>
      rw [hrem] at h
      match hrec : mergeStep rest with
      | some r =>
        rw [hrec] at h
        simp only [Option.some.injEq] at h
        subst h
        have hs := (mergeStep_some hrec).cons (x := a)
        rw [Multiset.cons_coe, Multiset.cons_coe] at hs
        exact hs
      | none => rw [hrec] at h; exact absurd h (by simp)

lemma mergeStep_none_pairwise : ∀ {l : List Box}, mergeStep l = none →
    l.Pairwise (fun p q => ¬ Overlap p q)
  | [], _ => List.Pairwise.nil
  | a :: rest, h => by
    rw [mergeStep] at h
    match hrem : removeFirstIntersecting a rest with
    | some (b, rest') => rw [hrem] at h; exact absurd h (by simp)
    | none =>
      rw [hrem] at h
      match hrec : mergeStep rest with
      | some r => rw [hrec] at h; exact absurd h (by simp)
      | none =>
        exact List.Pairwise.cons (removeFirstIntersecting_none hrem)
          (mergeStep_none_pairwise hrec)

lemma pairwise_not_overlap_erase : ∀ {l : List Box} {a b : Box},
    l.Pairwise (fun p q => ¬ Overlap p q) → a ∈ l → b ∈ l.erase a → ¬ Overlap a b
  | [], a, b, _, ha, _ => absurd ha (by simp)
  | c :: rest, a, b, hp, ha, hb => by
    obtain ⟨hc, hrest⟩ := List.pairwise_cons.mp hp
    by_cases hca : c = a
    · subst hca
      rw [List.erase_cons_head] at hb
      exact hc b hb
    · have ha' : a ∈ rest := by
        rcases List.mem_cons.mp ha with rfl | h
        · exact absurd rfl hca
        · exact h
      rw [List.erase_cons_tail (by simp [hca])] at hb
      rcases List.mem_cons.mp hb with rfl | hb'
      · exact fun hov => hc a ha' (overlap_symm hov)
      · exact pairwise_not_overlap_erase hrest ha' hb'

lemma mergedForm_coe {l : List Box} (h : l.Pairwise (fun p q => ¬ Overlap p q)) :
    MergedForm (l : Multiset Box) := by
  rintro m' ⟨a, b, rest, hov, hm, -⟩
  have ha : a ∈ l := by
    rw [← Multiset.mem_coe, hm]; simp
  have hb : b ∈ (l : Multiset Box).erase a := by
    rw [hm, Multiset.erase_cons_head]; simp
  rw [Multiset.coe_erase, Multiset.mem_coe] at hb
  exact pairwise_not_overlap_erase h ha hb hov

/-- The union-step relation has the diamond property: two distinct steps from
the same multiset can be joined in a single further step each. -/
lemma mstep_diamond {m m1 m2 : Multiset Box} (h1 : MStep m m1) (h2 : MStep m m2) :
    m1 = m2 ∨ ∃ j, MStep m1 j ∧ MStep m2 j := by
  obtain ⟨a, b, r1, hab, rfl, rfl⟩ := h1
  obtain ⟨c, d, r2, hcd, hm, rfl⟩ := h2
  rcases Multiset.cons_eq_cons.mp hm with ⟨hac, hE2⟩ | ⟨hac, cs, hE1, hE2⟩
  · subst hac
    rcases Multiset.cons_eq_cons.mp hE2 with ⟨hbd, hr⟩ | ⟨hbd, u, hu1, hu2⟩
    · subst hbd; subst hr; exact Or.inl rfl
    · refine Or.inr ⟨unionBox (unionBox a b) d ::ₘ u, ?_, ?_⟩
      · exact ⟨unionBox a b, d, u,
          overlap_mono hcd (unionBox_contains_left a b) (contains_refl d),
          by rw [hu1], rfl⟩
      · refine ⟨unionBox a d, b, u,
          overlap_mono hab (unionBox_contains_left a d) (contains_refl b),
          by rw [hu2], ?_⟩
        rw [unionBox_right_swap]
  · rcases Multiset.cons_eq_cons.mp hE1 with ⟨hbc, hcs⟩ | ⟨hbc, v, hv1, hv2⟩
    · subst hbc; subst hcs
      rcases Multiset.cons_eq_cons.mp hE2 with ⟨hda, hr⟩ | ⟨hda, v, hv1, hv2⟩
      · subst hda; subst hr
        exact Or.inl (by rw [unionBox_comm])
      · refine Or.inr ⟨unionBox (unionBox a b) d ::ₘ v, ?_, ?_⟩
        · exact ⟨unionBox a b, d, v,
            overlap_mono hcd (unionBox_contains_right a b) (contains_refl d),
            by rw [hv2], rfl⟩
        · refine ⟨unionBox b d, a, v,
            overlap_mono (overlap_symm hab) (unionBox_contains_left b d) (contains_refl a),
            by rw [hv1], ?_⟩
          rw [unionBox_left_rotate a b d]
    · subst hv2
      rcases Multiset.cons_eq_cons.mp hE2 with ⟨hda, hr2⟩ | ⟨hda, w, hw1, hw2⟩
      · subst hda
        refine Or.inr ⟨unionBox (unionBox d b) c ::ₘ v, ?_, ?_⟩
        · exact ⟨unionBox d b, c, v,
            overlap_mono (overlap_symm hcd) (unionBox_contains_left d b) (contains_refl c),
            by rw [hv1], rfl⟩
        · refine ⟨unionBox c d, b, v,
            overlap_mono hab (unionBox_contains_right c d) (contains_refl b),
            by rw [hr2], ?_⟩
          rw [unionBox_left_rotate c d b]
      · rcases Multiset.cons_eq_cons.mp hw2 with ⟨hbd, hvw⟩ | ⟨hbd, z, hz1, hz2⟩
        · subst hbd; subst hvw
          refine Or.inr ⟨unionBox (unionBox a b) c ::ₘ v, ?_, ?_⟩
          · exact ⟨unionBox a b, c, v,
              overlap_mono (overlap_symm hcd) (unionBox_contains_right a b) (contains_refl c),
              by rw [hv1], rfl⟩
          · refine ⟨unionBox c b, a, v,
              overlap_mono (overlap_symm hab) (unionBox_contains_right c b) (contains_refl a),
              by rw [hw1], ?_⟩
            rw [unionBox_outer_swap c b a]
        · subst hz2
          refine Or.inr ⟨unionBox a b ::ₘ unionBox c d ::ₘ z, ?_, ?_⟩
          · refine ⟨c, d, unionBox a b ::ₘ z, hcd, ?_, ?_⟩
            · rw [hv1, hz1, Multiset.cons_swap (unionBox a b) c,
                Multiset.cons_swap (unionBox a b) d]
            · rw [Multiset.cons_swap]
          · refine ⟨a, b, unionBox c d ::ₘ z, hab, ?_, rfl⟩
            rw [hw1, Multiset.cons_swap (unionBox c d) a,
              Multiset.cons_swap (unionBox c d) b]

lemma mergedForm_rtg_eq {m N : Multiset Box} (hm : MergedForm m)
    (h : Relation.ReflTransGen MStep m N) : N = m := by
  rcases h.cases_head with rfl | ⟨c, hc, -⟩
  · rfl
  · exact absurd hc (hm c)

/-- Every multiset of boxes reaches a merged form (termination: each step
drops the size by one). -/
lemma exists_mergedForm_aux : ∀ n (m : Multiset Box), Multiset.card m ≤ n →
    ∃ N, Relation.ReflTransGen MStep m N ∧ MergedForm N := by
  intro n
  induction n with
  | zero =>
    intro m hcard
    refine ⟨m, Relation.ReflTransGen.refl, fun m' hm' => ?_⟩
    have := hm'.card_succ
    omega
  | succ n ih =>
    intro m hcard
    by_cases h : ∃ m', MStep m m'
    · obtain ⟨m', hm'⟩ := h
      have hc := hm'.card_succ
      obtain ⟨N, hN, hNF⟩ := ih m' (by omega)
      exact ⟨N, Relation.ReflTransGen.head hm' hN, hNF⟩
    · exact ⟨m, Relation.ReflTransGen.refl, fun m' hm' => h ⟨m', hm'⟩⟩

/-- Merged forms are unique: the union-step system is confluent because it
has the diamond property and all reduction sequences shrink the multiset. -/
lemma mergedForm_unique_aux : ∀ n (m N1 N2 : Multiset Box), Multiset.card m ≤ n →
    Relation.ReflTransGen MStep m N1 → MergedForm N1 →
    Relation.ReflTransGen MStep m N2 → MergedForm N2 → N1 = N2 := by
  intro n
  induction n with
  | zero =>
    intro m N1 N2 hcard h1 hNF1 h2 hNF2
    rcases h1.cases_head with rfl | ⟨c1, hc1, -⟩
    · rcases h2.cases_head with rfl | ⟨c2, hc2, -⟩
      · rfl
      · have := hc2.card_succ; omega
    · have := hc1.card_succ; omega
  | succ n ih =>
    intro m N1 N2 hcard h1 hNF1 h2 hNF2
    rcases h1.cases_head with rfl | ⟨c1, hc1, h1'⟩
    · exact (mergedForm_rtg_eq hNF1 h2).symm
    · rcases h2.cases_head with rfl | ⟨c2, hc2, h2'⟩
      · exact absurd hc1 (hNF2 c1)
      · have hcard1 : Multiset.card c1 ≤ n := by have := hc1.card_succ; omega
        have hcard2 : Multiset.card c2 ≤ n := by have := hc2.card_succ; omega
        rcases mstep_diamond hc1 hc2 with heq | ⟨j, hj1, hj2⟩
        · subst heq
          exact ih c1 N1 N2 hcard1 h1' hNF1 h2' hNF2
        · obtain ⟨N3, hN3, hNF3⟩ :=
            exists_mergedForm_aux n j (by have := hj1.card_succ; omega)
          have e1 : N1 = N3 := ih c1 N1 N3 hcard1 h1' hNF1
            (Relation.ReflTransGen.head hj1 hN3) hNF3
          have e2 : N2 = N3 := ih c2 N2 N3 hcard2 h2' hNF2
            (Relation.ReflTransGen.head hj2 hN3) hNF3
          rw [e1, e2]

/-! ## The merge loop computes a merged form of the input multiset -/

lemma mergeStep_length {l l' : List Box} (h : mergeStep l = some l') :
    l'.length + 1 = l.length := by
  have := (mergeStep_some h).card_succ
  simpa using this

lemma mergeLoop_of_none {n : Nat} {l : List Box} (h : mergeStep l = none) :
    mergeLoop n l = l := by
  cases n with
  | zero => rfl
  | succ n => simp [mergeLoop, h]

lemma mergeLoop_rtg : ∀ (n : Nat) (l : List Box),
    Relation.ReflTransGen MStep (l : Multiset Box) ((mergeLoop n l : List Box) : Multiset Box)
  | 0, _ => Relation.ReflTransGen.refl
  | n + 1, l => by
    match h : mergeStep l with
    | some l' =>
      rw [show mergeLoop (n + 1) l = mergeLoop n l' by simp [mergeLoop, h]]
      exact Relation.ReflTransGen.head (mergeStep_some h) (mergeLoop_rtg n l')
    | none =>
      rw [show mergeLoop (n + 1) l = l by simp [mergeLoop, h]]

lemma mergeStep_mergeLoop : ∀ (n : Nat) (l : List Box), l.length ≤ n + 1 →
    mergeStep (mergeLoop n l) = none
  | 0, [], _ => rfl
  | 0, [_], _ => rfl
  | 0, _ :: _ :: _, hlen => by simp at hlen
  | n + 1, l, hlen => by
    match h : mergeStep l with
    | some l' =>
      rw [show mergeLoop (n + 1) l = mergeLoop n l' by simp [mergeLoop, h]]
      exact mergeStep_mergeLoop n l' (by have := mergeStep_length h; omega)
    | none =>
      rw [show mergeLoop (n + 1) l = l by simp [mergeLoop, h]]
      exact h

lemma merge_rtg (l : List Box) :
    Relation.ReflTransGen MStep (l : Multiset Box)
      ((mergeOverlappingBoxes l : List Box) : Multiset Box) :=
  mergeLoop_rtg l.length l

lemma merge_mergeStep_none (l : List Box) :
    mergeStep (mergeOverlappingBoxes l) = none :=
  mergeStep_mergeLoop l.length l (by omega)

lemma merge_pairwise (l : List Box) :
    (mergeOverlappingBoxes l).Pairwise (fun p q => ¬ Overlap p q) :=
  mergeStep_none_pairwise (merge_mergeStep_none l)

lemma merge_mergedForm (l : List Box) :
    MergedForm ((mergeOverlappingBoxes l : List Box) : Multiset Box) :=
  mergedForm_coe (merge_pairwise l)

lemma mstep_covers {m m' : Multiset Box} (h : MStep m m') :
    ∀ c ∈ m, ∃ c' ∈ m', Contains c' c := by
  obtain ⟨a, b, rest, hab, rfl, rfl⟩ := h
  intro c hc
  rcases Multiset.mem_cons.mp hc with rfl | hc
  · exact ⟨unionBox c b, Multiset.mem_cons_self _ _, unionBox_contains_left c b⟩
  · rcases Multiset.mem_cons.mp hc with rfl | hc
    · exact ⟨unionBox a c, Multiset.mem_cons_self _ _, unionBox_contains_right a c⟩
    · exact ⟨c, Multiset.mem_cons_of_mem hc, contains_refl c⟩

lemma rtg_covers {m m' : Multiset Box} (h : Relation.ReflTransGen MStep m m') :
    ∀ c ∈ m, ∃ c' ∈ m', Contains c' c := by
  induction h with
  | refl => exact fun c hc => ⟨c, hc, contains_refl c⟩
  | tail _ hlast ih =>
    intro c hc
    obtain ⟨c', hc', hcont⟩ := ih c hc
    obtain ⟨c'', hc'', hcont'⟩ := mstep_covers hlast c' hc'
    exact ⟨c'', hc'', contains_trans hcont' hcont⟩

/-- Every input box ends up geometrically contained in some output box of the
merge (shared helper for the coverage claims). -/
lemma merge_covers_mem {l : List Box} {b : Box} (hb : b ∈ l) :
    ∃ F ∈ mergeOverlappingBoxes l, Contains F b := by
  obtain ⟨F, hF, hcont⟩ := rtg_covers (merge_rtg l) b (Multiset.mem_coe.mpr hb)
  exact ⟨F, Multiset.mem_coe.mp hF, hcont⟩

/-- In a merged form two overlapping member boxes must be the same box. -/
lemma mergedForm_overlap_eq {m : Multiset Box} (hm : MergedForm m) {F1 F2 : Box}
    (h1 : F1 ∈ m) (h2 : F2 ∈ m) (hov : Overlap F1 F2) : F1 = F2 := by
  by_contra hne
  have h2' : F2 ∈ m.erase F1 :=
    (Multiset.mem_erase_of_ne (fun he => hne he.symm)).mpr h2
  refine hm (unionBox F1 F2 ::ₘ (m.erase F1).erase F2)
    ⟨F1, F2, (m.erase F1).erase F2, hov, ?_, rfl⟩
  rw [Multiset.cons_erase h2', Multiset.cons_erase h1]

/-- The transitive closure of the pairwise strict-area-overlap relation,
restricted to the boxes of the input list. -/
def ChainedIn (l : List Box) : Box → Box → Prop :=
  Relation.TransGen (fun p q => p ∈ l ∧ q ∈ l ∧ Overlap p q)

/-! ## Claim theorems about `mergeOverlappingBoxes` -/

/-- C7: `mergeOverlappingBoxes` is idempotent — applying it to its own output
returns that output unchanged (hence in particular the same unordered set of
boxes). -/
theorem mergeOverlappingBoxes_idempotent (l : List Box) :
    mergeOverlappingBoxes (mergeOverlappingBoxes l) = mergeOverlappingBoxes l :=
  mergeLoop_of_none (merge_mergeStep_none l)

/-- C6: `mergeOverlappingBoxes` is order-insensitive — any permutation of the
input list yields the same multiset (hence the same unordered set) of output
boxes.  Follows from uniqueness of merged forms of the union-step system. -/
theorem mergeOverlappingBoxes_perm_invariant {l1 l2 : List Box} (h : l1.Perm l2) :
    ((mergeOverlappingBoxes l1 : List Box) : Multiset Box) =
      ((mergeOverlappingBoxes l2 : List Box) : Multiset Box) := by
  have hm : (l1 : Multiset Box) = (l2 : Multiset Box) := Multiset.coe_eq_coe.mpr h
  refine mergedForm_unique_aux (Multiset.card (l1 : Multiset Box)) (l1 : Multiset Box)
    _ _ le_rfl (merge_rtg l1) (merge_mergedForm l1) ?_ (merge_mergedForm l2)
  rw [hm]
  exact merge_rtg l2

/-- Witness for C6 at a concrete permutation: swapping a two-element input
list leaves the resulting multiset of boxes unchanged. -/
theorem mergeOverlappingBoxes_perm_invariant_witness :
    ((mergeOverlappingBoxes [⟨0,0,2,2⟩, ⟨1,1,4,4⟩] : List Box) : Multiset Box) =
      ((mergeOverlappingBoxes [⟨1,1,4,4⟩, ⟨0,0,2,2⟩] : List Box) : Multiset Box) :=
  mergeOverlappingBoxes_perm_invariant
    (List.Perm.swap (⟨1,1,4,4⟩ : Box) (⟨0,0,2,2⟩ : Box) [])

/-- C10: every input box is geometrically contained in some box of the merge
output — merging never drops or shrinks any input region's coverage. -/
theorem mergeOverlappingBoxes_covers_inputs {l : List Box} {b : Box} (hb : b ∈ l) :
    ∃ F ∈ mergeOverlappingBoxes l, Contains F b :=
  merge_covers_mem hb

/-- Witness for C10 at a concrete input: the first box of a two-element list
is covered by a box of the output. -/
theorem mergeOverlappingBoxes_covers_inputs_witness :
    ∃ F ∈ mergeOverlappingBoxes [⟨0,0,2,2⟩, ⟨1,1,4,4⟩], Contains F ⟨0,0,2,2⟩ :=
  mergeOverlappingBoxes_covers_inputs (l := [⟨0,0,2,2⟩, ⟨1,1,4,4⟩]) (by simp)

/-- C1 (amended): the output boxes are pairwise non-overlapping, and every
pair of input boxes related by the transitive closure of pairwise overlap on
the *input* list ends up inside a single output box.  (The converse of the
original claim fails: a union box may also absorb input boxes outside the
closure class, see `mergeOverlappingBoxes_not_closure_partition`.) -/
theorem mergeOverlappingBoxes_coarsens_closure (l : List Box) :
    (mergeOverlappingBoxes l).Pairwise (fun p q => ¬ Overlap p q) ∧
    ∀ a b : Box, ChainedIn l a b →
      ∃ F ∈ mergeOverlappingBoxes l, Contains F a ∧ Contains F b := by
  refine ⟨merge_pairwise l, ?_⟩
  intro a b hchain
  induction hchain with
  | single hstep =>
    obtain ⟨ha, hb, hov⟩ := hstep
    obtain ⟨Fa, hFa, hca⟩ := merge_covers_mem ha
    obtain ⟨Fb, hFb, hcb⟩ := merge_covers_mem hb
    have hov' : Overlap Fa Fb := overlap_mono hov hca hcb
    have heq : Fa = Fb := mergedForm_overlap_eq (merge_mergedForm l)
      (Multiset.mem_coe.mpr hFa) (Multiset.mem_coe.mpr hFb) hov'
    refine ⟨Fa, hFa, hca, ?_⟩
    rw [heq]
    exact hcb
  | tail _ hlast ih =>
    obtain ⟨F, hF, hca, hcb'⟩ := ih
    obtain ⟨hb', hcm, hov⟩ := hlast
    obtain ⟨Fc, hFc, hcc⟩ := merge_covers_mem hcm
    have hov' : Overlap F Fc := overlap_mono hov hcb' hcc
    have heq : F = Fc := mergedForm_overlap_eq (merge_mergedForm l)
      (Multiset.mem_coe.mpr hF) (Multiset.mem_coe.mpr hFc) hov'
    refine ⟨F, hF, hca, ?_⟩
    rw [heq]
    exact hcc

/-- Witness for C1 (amended) at a concrete input: the two overlapping boxes
land inside a single output box. -/
theorem mergeOverlappingBoxes_coarsens_closure_witness :
    ∃ F ∈ mergeOverlappingBoxes [⟨0,0,2,2⟩, ⟨1,0,1,10⟩, ⟨0,5,1,1⟩],
      Contains F ⟨0,0,2,2⟩ ∧ Contains F ⟨1,0,1,10⟩ :=
  (mergeOverlappingBoxes_coarsens_closure [⟨0,0,2,2⟩, ⟨1,0,1,10⟩, ⟨0,5,1,1⟩]).2
    ⟨0,0,2,2⟩ ⟨1,0,1,10⟩
    (Relation.TransGen.single ⟨by simp, by simp, by decide⟩)

/-- The spec-side merge of C1, following the specification's words: take the
transitive closure of the pairwise strict-area-overlap relation on the
original input boxes, and replace each equivalence class by its bounding-box
union.  `growOverlapClass` adds to a partial class every input box
overlapping a current member; iterating it `l.length` times reaches the
closure. -/
def growOverlapClass (l : List Box) (s : List Box) : List Box :=
  s ++ l.filter (fun b => !(s.contains b) && s.any (fun a => doBoxesIntersect a b))

def iterGrowClass (l : List Box) : Nat → List Box → List Box
  | 0, s => s
  | n + 1, s => iterGrowClass l n (growOverlapClass l s)

def specClosureMerge (l : List Box) : List Box :=
  (l.map (fun a => (iterGrowClass l l.length [a]).foldl unionBox a)).dedup

/-- Counterexample to C1 as stated: for the boxes (0,0,2×2), (1,0,1×10) and
(0,5,1×1), the third box overlaps neither of the first two, so the closure
partition keeps it separate; but the union of the first two overlaps it, and
the code's restart-on-first-merge fixpoint absorbs it.  The two unordered
sets of boxes differ. -/
theorem mergeOverlappingBoxes_not_closure_partition :
    (mergeOverlappingBoxes [⟨0,0,2,2⟩, ⟨1,0,1,10⟩, ⟨0,5,1,1⟩]).toFinset ≠
      (specClosureMerge [⟨0,0,2,2⟩, ⟨1,0,1,10⟩, ⟨0,5,1,1⟩]).toFinset := by
  decide

/-! ## Rasters and `removeBackground` -/

/-- A decoded RGBA raster (the canvas `ImageData`): width, height and a flat
row-major RGBA byte list. -/
structure Raster where
  width : Nat
  height : Nat
  data : List Nat

/-- The per-pixel condition of `removeBackground`:
`Math.sqrt((r-r0)^2 + (g-g0)^2 + (b-b0)^2) <= tolerance`, rendered exactly
without the square root (see the file header). -/
def bgClose (r0 g0 b0 : Nat) (tolerance : Int) (r g b : Nat) : Bool :=
  decide (0 ≤ tolerance) &&
  decide (((r : Int) - r0) ^ 2 + ((g : Int) - g0) ^ 2 + ((b : Int) - b0) ^ 2 ≤
    tolerance * tolerance)

/-- The byte loop of `removeBackground` (`for (i = 0; i < len; i += 4)`):
rewrite the alpha byte of each complete RGBA quadruple whose color is within
`tolerance` of the reference color.  A trailing incomplete chunk is left
unchanged: there the JS reads of the missing channels give `undefined`, the
distance is `NaN`, and the `<=` comparison is false. -/
def removeBgData (r0 g0 b0 : Nat) (tolerance : Int) : List Nat → List Nat
  | r :: g :: b :: a :: rest =>
    r :: g :: b :: (if bgClose r0 g0 b0 tolerance r g b then 0 else a) ::
      removeBgData r0 g0 b0 tolerance rest
  | l => l

/-- `removeBackground` from `src/utils/imageProcessor.ts`: the reference
color is the (0,0) pixel (bytes 0..3); if its alpha is 0 the call is a
no-op; otherwise every pixel within `tolerance` Euclidean RGB distance of
the reference color gets alpha 0.  The `getImageData`/`putImageData`
round-trip moves the same bytes and is dropped from the embedding. -/
def removeBackground (r : Raster) (tolerance : Int) : Raster :=
  if r.data.getD 3 0 = 0 then r
  else
    { r with
      data := removeBgData (r.data.getD 0 0) (r.data.getD 1 0)
        (r.data.getD 2 0) tolerance r.data }

lemma removeBgData_length (r0 g0 b0 : Nat) (t : Int) :
    ∀ d : List Nat, (removeBgData r0 g0 b0 t d).length = d.length
  | r :: g :: b :: a :: rest => by
    simp [removeBgData, removeBgData_length r0 g0 b0 t rest]
  | [] => rfl
  | [_] => rfl
  | [_, _] => rfl
  | [_, _, _] => rfl

lemma removeBgData_getD_nonalpha (r0 g0 b0 : Nat) (t : Int) :
    ∀ (d : List Nat) (i : Nat), i % 4 ≠ 3 →
      (removeBgData r0 g0 b0 t d).getD i 0 = d.getD i 0
  | r :: g :: b :: a :: rest, 0, _ => rfl
  | r :: g :: b :: a :: rest, 1, _ => rfl
  | r :: g :: b :: a :: rest, 2, _ => rfl
  | r :: g :: b :: a :: rest, 3, h => absurd rfl h
  | r :: g :: b :: a :: rest, i + 4, h => by
    show (removeBgData r0 g0 b0 t (r :: g :: b :: a :: rest)).getD (i + 4) 0 = _
    simp only [removeBgData]
    rw [show i + 4 = i + 1 + 1 + 1 + 1 from by omega]
    simp only [List.getD_cons_succ]
    exact removeBgData_getD_nonalpha r0 g0 b0 t rest i (by omega)
  | [], _, _ => rfl
  | [_], _, _ => rfl
  | [_, _], _, _ => rfl
  | [_, _, _], _, _ => rfl

lemma removeBgData_getD_alpha (r0 g0 b0 : Nat) (t : Int) :
    ∀ (d : List Nat) (j : Nat), 4 * j + 3 < d.length →
      (removeBgData r0 g0 b0 t d).getD (4 * j + 3) 0 =
        if bgClose r0 g0 b0 t (d.getD (4 * j) 0) (d.getD (4 * j + 1) 0)
            (d.getD (4 * j + 2) 0) then 0 else d.getD (4 * j + 3) 0
  | r :: g :: b :: a :: rest, 0, _ => by
    simp [removeBgData]
  | r :: g :: b :: a :: rest, j + 1, h => by
    have h' : 4 * j + 3 < rest.length := by
      simp only [List.length_cons] at h; omega
    simp only [removeBgData]
    rw [show 4 * (j + 1) + 3 = 4 * j + 3 + 1 + 1 + 1 + 1 from by omega,
      show 4 * (j + 1) + 2 = 4 * j + 2 + 1 + 1 + 1 + 1 from by omega,
      show 4 * (j + 1) + 1 = 4 * j + 1 + 1 + 1 + 1 + 1 from by omega,
      show 4 * (j + 1) = 4 * j + 1 + 1 + 1 + 1 from by omega]
    simp only [List.getD_cons_succ]
    exact removeBgData_getD_alpha r0 g0 b0 t rest j h'
  | [], j, h => by simp at h
  | [_], j, h => by simp only [List.length_cons, List.length_nil] at h; omega
  | [_, _], j, h => by simp only [List.length_cons, List.length_nil] at h; omega
  | [_, _, _], j, h => by simp only [List.length_cons, List.length_nil] at h; omega

/-- C9: `removeBackground` preserves the dimensions and every non-alpha
byte; any byte it changes is an alpha byte and is set to 0; and if the
(0,0) pixel's alpha is already 0 the raster is returned unchanged. -/
theorem removeBackground_alpha_only (r : Raster) (t : Int) :
    (removeBackground r t).width = r.width ∧
    (removeBackground r t).height = r.height ∧
    (removeBackground r t).data.length = r.data.length ∧
    (∀ i : Nat, i % 4 ≠ 3 →
      (removeBackground r t).data.getD i 0 = r.data.getD i 0) ∧
    (∀ i : Nat, (removeBackground r t).data.getD i 0 ≠ r.data.getD i 0 →
      i % 4 = 3 ∧ (removeBackground r t).data.getD i 0 = 0) ∧
    (r.data.getD 3 0 = 0 → removeBackground r t = r) := by
  by_cases h0 : r.data.getD 3 0 = 0
  · have hne : removeBackground r t = r := by
      unfold removeBackground; rw [if_pos h0]
    rw [hne]
    exact ⟨rfl, rfl, rfl, fun _ _ => rfl, fun i hi => absurd rfl hi, fun _ => rfl⟩
  · have hne : removeBackground r t = { r with
        data := removeBgData (r.data.getD 0 0) (r.data.getD 1 0)
          (r.data.getD 2 0) t r.data } := by
      unfold removeBackground; rw [if_neg h0]
    rw [hne]
    refine ⟨rfl, rfl, removeBgData_length _ _ _ _ _, ?_, ?_, fun hc => absurd hc h0⟩
    · exact fun i hi => removeBgData_getD_nonalpha _ _ _ _ r.data i hi
    · intro i hi
      by_cases hmod : i % 4 = 3
      · refine ⟨hmod, ?_⟩
        obtain ⟨j, rfl⟩ : ∃ j, i = 4 * j + 3 := ⟨i / 4, by omega⟩
        by_cases hlen : 4 * j + 3 < r.data.length
        · have halpha := removeBgData_getD_alpha (r.data.getD 0 0)
            (r.data.getD 1 0) (r.data.getD 2 0) t r.data j hlen
          by_cases hc : bgClose (r.data.getD 0 0) (r.data.getD 1 0)
              (r.data.getD 2 0) t (r.data.getD (4 * j) 0)
              (r.data.getD (4 * j + 1) 0) (r.data.getD (4 * j + 2) 0)
          · rw [halpha, if_pos hc]
          · rw [halpha, if_neg hc] at hi
            exact absurd rfl hi
        · have e1 : r.data.getD (4 * j + 3) 0 = 0 :=
            List.getD_eq_default _ _ (by omega)
          have e2 : (removeBgData (r.data.getD 0 0) (r.data.getD 1 0)
              (r.data.getD 2 0) t r.data).getD (4 * j + 3) 0 = 0 :=
            List.getD_eq_default _ _
              (by rw [removeBgData_length]; omega)
          rw [e1, e2] at hi
          exact absurd rfl hi
      · exact absurd (removeBgData_getD_nonalpha _ _ _ _ r.data i hmod) hi

/-- Witness for C9 at a concrete raster: a red byte survives the call. -/
theorem removeBackground_alpha_only_witness :
    (removeBackground ⟨1, 1, [10, 20, 30, 255]⟩ 100).data.getD 0 0 =
      (⟨1, 1, [10, 20, 30, 255]⟩ : Raster).data.getD 0 0 :=
  (removeBackground_alpha_only ⟨1, 1, [10, 20, 30, 255]⟩ 100).2.2.2.1 0 (by decide)

lemma bgClose_zero_iff (r g b : Nat) :
    bgClose 255 255 255 0 r g b = true ↔ r = 255 ∧ g = 255 ∧ b = 255 := by
  simp only [bgClose, Bool.and_eq_true, decide_eq_true_eq]
  constructor
  · rintro ⟨-, hle⟩
    norm_num at hle
    have hA := sq_nonneg ((r : Int) - 255)
    have hB := sq_nonneg ((g : Int) - 255)
    have hC := sq_nonneg ((b : Int) - 255)
    have hA0 : ((r : Int) - 255) ^ 2 = 0 := by linarith
    have hB0 : ((g : Int) - 255) ^ 2 = 0 := by linarith
    have hC0 : ((b : Int) - 255) ^ 2 = 0 := by linarith
    have hr : (r : Int) = 255 := by
      have := (pow_eq_zero_iff (two_ne_zero)).mp hA0
      linarith
    have hg : (g : Int) = 255 := by
      have := (pow_eq_zero_iff (two_ne_zero)).mp hB0
      linarith
    have hb : (b : Int) = 255 := by
      have := (pow_eq_zero_iff (two_ne_zero)).mp hC0
      linarith
    exact ⟨by exact_mod_cast hr, by exact_mod_cast hg, by exact_mod_cast hb⟩
  · rintro ⟨rfl, rfl, rfl⟩
    norm_num

lemma bgClose_442_of_bytes (r g b : Nat) (hr : r < 256) (hg : g < 256)
    (hb : b < 256) : bgClose 255 255 255 442 r g b = true := by
  simp only [bgClose, Bool.and_eq_true, decide_eq_true_eq]
  refine ⟨by norm_num, ?_⟩
  have hr1 : (0 : Int) ≤ (r : Int) := Int.natCast_nonneg r
  have hg1 : (0 : Int) ≤ (g : Int) := Int.natCast_nonneg g
  have hb1 : (0 : Int) ≤ (b : Int) := Int.natCast_nonneg b
  have hr2 : (r : Int) ≤ 255 := by exact_mod_cast Nat.lt_succ_iff.mp hr
  have hg2 : (g : Int) ≤ 255 := by exact_mod_cast Nat.lt_succ_iff.mp hg
  have hb2 : (b : Int) ≤ 255 := by exact_mod_cast Nat.lt_succ_iff.mp hb
  have h1 : ((r : Int) - 255) ^ 2 ≤ 255 ^ 2 := sq_le_sq' (by linarith) (by linarith)
  have h2 : ((g : Int) - 255) ^ 2 ≤ 255 ^ 2 := sq_le_sq' (by linarith) (by linarith)
  have h3 : ((b : Int) - 255) ^ 2 ≤ 255 ^ 2 := sq_le_sq' (by linarith) (by linarith)
  calc ((r : Int) - 255) ^ 2 + ((g : Int) - 255) ^ 2 + ((b : Int) - 255) ^ 2
      ≤ 255 ^ 2 + 255 ^ 2 + 255 ^ 2 := by linarith
    _ ≤ 442 * 442 := by norm_num

/-- C5 (amended): for every well-formed raster whose (0,0) pixel is
(255,255,255,255): tolerance 0 sets alpha to 0 exactly on the pixels whose
RGB is exactly (255,255,255) and leaves every other alpha unchanged; and —
correcting the claim — tolerance 442 (not 441) makes every pixel
transparent: the maximum Euclidean RGB distance is √195075 ≈ 441.67, which
exceeds 441. -/
theorem removeBackground_white_tolerances (r : Raster)
    (hbytes : ∀ b ∈ r.data, b < 256)
    (h0 : r.data.getD 0 0 = 255) (h1 : r.data.getD 1 0 = 255)
    (h2 : r.data.getD 2 0 = 255) (h3 : r.data.getD 3 0 = 255) :
    (∀ j : Nat, 4 * j + 3 < r.data.length →
      (removeBackground r 0).data.getD (4 * j + 3) 0 =
        if r.data.getD (4 * j) 0 = 255 ∧ r.data.getD (4 * j + 1) 0 = 255 ∧
            r.data.getD (4 * j + 2) 0 = 255 then 0
        else r.data.getD (4 * j + 3) 0) ∧
    (∀ j : Nat, 4 * j + 3 < r.data.length →
      (removeBackground r 442).data.getD (4 * j + 3) 0 = 0) := by
  have hbyte : ∀ i : Nat, i < r.data.length → r.data.getD i 0 < 256 := by
    intro i hi
    rw [List.getD_eq_getElem _ _ hi]
    exact hbytes _ (List.getElem_mem _)
  have hrw : ∀ t : Int, removeBackground r t =
      { r with data := removeBgData 255 255 255 t r.data } := by
    intro t
    unfold removeBackground
    rw [if_neg (by rw [h3]; norm_num), h0, h1, h2]
  constructor
  · intro j hj
    rw [hrw 0, removeBgData_getD_alpha 255 255 255 0 r.data j hj]
    by_cases hc : r.data.getD (4 * j) 0 = 255 ∧
        r.data.getD (4 * j + 1) 0 = 255 ∧ r.data.getD (4 * j + 2) 0 = 255
    · rw [if_pos ((bgClose_zero_iff _ _ _).mpr hc), if_pos hc]
    · rw [if_neg (fun hb => hc ((bgClose_zero_iff _ _ _).mp hb)), if_neg hc]
  · intro j hj
    rw [hrw 442, removeBgData_getD_alpha 255 255 255 442 r.data j hj]
    rw [if_pos (bgClose_442_of_bytes _ _ _
      (hbyte _ (by omega)) (hbyte _ (by omega)) (hbyte _ (by omega)))]

/-- Witness for C5 (amended) at a 1×1 white raster and tolerance 442. -/
theorem removeBackground_white_tolerances_witness :
    (removeBackground ⟨1, 1, [255, 255, 255, 255]⟩ 442).data.getD 3 0 = 0 :=
  (removeBackground_white_tolerances ⟨1, 1, [255, 255, 255, 255]⟩ (by decide)
    (by decide) (by decide) (by decide) (by decide)).2 0 (by decide)

/-- Counterexample to C5 as stated: the 2×1 raster below has a white (0,0)
pixel, and its second pixel is (0,0,0,255) at Euclidean RGB distance
√195075 ≈ 441.67 > 441 from white, so tolerance 441 leaves its alpha at
255: tolerance 441 does NOT make every pixel transparent. -/
theorem removeBackground_441_not_all_transparent :
    (⟨2, 1, [255, 255, 255, 255, 0, 0, 0, 255]⟩ : Raster).data.getD 0 0 = 255 ∧
    (⟨2, 1, [255, 255, 255, 255, 0, 0, 0, 255]⟩ : Raster).data.getD 1 0 = 255 ∧
    (⟨2, 1, [255, 255, 255, 255, 0, 0, 0, 255]⟩ : Raster).data.getD 2 0 = 255 ∧
    (⟨2, 1, [255, 255, 255, 255, 0, 0, 0, 255]⟩ : Raster).data.getD 3 0 = 255 ∧
    (removeBackground ⟨2, 1, [255, 255, 255, 255, 0, 0, 0, 255]⟩ 441).data.getD 7 0
      ≠ 0 := by
  decide

/-! ## The region detector: `findSprites` and its stack-based flood fill -/

/-- `getIndex` from `findSprites`: byte offset of pixel (x, y). -/
def getIndex (w x y : Nat) : Nat := (y * w + x) * 4

/-- `isTransparent` from `findSprites`: alpha strictly below the threshold
10.  All accesses `findSprites` makes on a well-formed raster are in
bounds, where `getD` returns the stored byte exactly. -/
def isTransparent (r : Raster) (idx : Nat) : Bool :=
  r.data.getD (idx + 3) 0 < 10

/-- The mutable state of the stack-based flood fill in `findSprites`. -/
structure FillState where
  stack : List (Nat × Nat)
  visited : List Bool
  minX : Nat
  maxX : Nat
  minY : Nat
  maxY : Nat
  pixelCount : Nat

/-- Process the four neighbours of a popped pixel in source order
`[x+1,y], [x-1,y], [x,y+1], [x,y-1]`: in-bounds, unvisited, opaque
neighbours are marked visited and pushed.  The JS array is pushed/popped at
its end; we model the stack as a list whose head is the top, so a push is a
cons. -/
def pushNeighbors (r : Raster) : List (Int × Int) →
    List Bool × List (Nat × Nat) → List Bool × List (Nat × Nat)
  | [], acc => acc
  | (nx, ny) :: nbrs, (vis, st) =>
    if 0 ≤ nx ∧ nx < (r.width : Int) ∧ 0 ≤ ny ∧ ny < (r.height : Int) then
      let vIdx := ny.toNat * r.width + nx.toNat
      if vis.getD vIdx false = false then
        if isTransparent r (getIndex r.width nx.toNat ny.toNat) = false then
          pushNeighbors r nbrs (vis.set vIdx true, (nx.toNat, ny.toNat) :: st)
        else pushNeighbors r nbrs (vis, st)
      else pushNeighbors r nbrs (vis, st)
    else pushNeighbors r nbrs (vis, st)

/-- The `while (stack.length > 0)` loop of `floodFill`, one fuel per pop.
`W*H + 1` pops always suffice, since every push marks a previously
unvisited cell visited. -/
def fillLoop (r : Raster) : Nat → FillState → FillState
  | 0, s => s
  | fuel + 1, s =>
    match s.stack with
    | [] => s
    | (x, y) :: rest =>
      let vs := pushNeighbors r
        [((x : Int) + 1, (y : Int)), ((x : Int) - 1, (y : Int)),
         ((x : Int), (y : Int) + 1), ((x : Int), (y : Int) - 1)]
        (s.visited, rest)
      fillLoop r fuel
        { stack := vs.2, visited := vs.1,
          minX := min s.minX x, maxX := max s.maxX x,
          minY := min s.minY y, maxY := max s.maxY y,
          pixelCount := s.pixelCount + 1 }

/-- The fixed 1-pixel detection padding of `floodFill`. -/
def detectionPadding : Int := 1

/-- `floodFill` from `findSprites`: grow the component from
`(startX, startY)`, drop components under 50 pixels (the noise filter), and
pad/clamp the surviving box. -/
def floodFill (r : Raster) (startX startY : Nat) (visited : List Bool) :
    Option Box × List Bool :=
  let s := fillLoop r (r.width * r.height + 1)
    { stack := [(startX, startY)],
      visited := visited.set (startY * r.width + startX) true,
      minX := startX, maxX := startX, minY := startY, maxY := startY,
      pixelCount := 0 }
  (if s.pixelCount < 50 then none
   else some
     { x := max 0 ((s.minX : Int) - detectionPadding),
       y := max 0 ((s.minY : Int) - detectionPadding),
       width := min (r.width : Int)
         ((s.maxX : Int) - (s.minX : Int) + 1 + detectionPadding * 2),
       height := min (r.height : Int)
         ((s.maxY : Int) - (s.minY : Int) + 1 + detectionPadding * 2) },
   s.visited)

/-- One step of the row-major scan of `findSprites`: an unvisited opaque
pixel starts a flood fill whose surviving box is appended in discovery
order. -/
def scanStep (r : Raster) (y : Nat) (acc : List Bool × List Box) (x : Nat) :
    List Bool × List Box :=
  if acc.1.getD (y * r.width + x) false = false then
    if isTransparent r (getIndex r.width x y) = false then
      let fb := floodFill r x y acc.1
      (fb.2, acc.2 ++ fb.1.toList)
    else acc
  else acc

/-- The raw region detection of `findSprites` (before the final merge):
row-major scan over all pixels with a `W*H` visited mask initialized to
false. -/
def detectRegions (r : Raster) : List Box :=
  ((List.range r.height).foldl
    (fun acc y => (List.range r.width).foldl (scanStep r y) acc)
    (List.replicate (r.width * r.height) false, [])).2

/-- `findSprites` from `src/utils/imageProcessor.ts`: flood-fill region
detection followed by the overlap merge. -/
def findSprites (r : Raster) : List Box :=
  mergeOverlappingBoxes (detectRegions r)

/-- The flood-fill invariant: all stacked coordinates are strictly inside
the raster, and the running min/max trackers stay inside it too. -/
def StackBounded (r : Raster) (s : FillState) : Prop :=
  (∀ p ∈ s.stack, p.1 < r.width ∧ p.2 < r.height) ∧
  s.minX ≤ s.maxX ∧ s.maxX < r.width ∧ s.minY ≤ s.maxY ∧ s.maxY < r.height

lemma pushNeighbors_stack (r : Raster) :
    ∀ (nbrs : List (Int × Int)) (vis : List Bool) (st : List (Nat × Nat)),
      (∀ p ∈ st, p.1 < r.width ∧ p.2 < r.height) →
      ∀ p ∈ (pushNeighbors r nbrs (vis, st)).2, p.1 < r.width ∧ p.2 < r.height
  | [], _, _, hst => hst
  | (nx, ny) :: nbrs, vis, st, hst => by
    simp only [pushNeighbors]
    split
    · rename_i hb
      split
      · split
        · apply pushNeighbors_stack r nbrs _ _
          intro p hp
          rcases List.mem_cons.mp hp with rfl | hp
          · refine ⟨?_, ?_⟩ <;> omega
          · exact hst p hp
        · exact pushNeighbors_stack r nbrs _ _ hst
      · exact pushNeighbors_stack r nbrs _ _ hst
    · exact pushNeighbors_stack r nbrs _ _ hst

lemma fillLoop_bounded (r : Raster) :
    ∀ (fuel : Nat) (s : FillState), StackBounded r s →
      StackBounded r (fillLoop r fuel s)
  | 0, _, hs => hs
  | fuel + 1, s, hs => by
    match hstack : s.stack with
    | [] =>
      simp only [fillLoop, hstack]
      exact hs
    | (x, y) :: rest =>
      simp only [fillLoop, hstack]
      apply fillLoop_bounded r fuel
      have hhead : x < r.width ∧ y < r.height :=
        hs.1 (x, y) (by rw [hstack]; exact List.mem_cons_self _ _)
      have hrest : ∀ p ∈ rest, p.1 < r.width ∧ p.2 < r.height :=
        fun p hp => hs.1 p (by rw [hstack]; exact List.mem_cons_of_mem _ hp)
      obtain ⟨-, h1, h2, h3, h4⟩ := hs
      unfold StackBounded
      dsimp only
      exact ⟨pushNeighbors_stack r _ _ _ hrest, by omega, by omega, by omega, by omega⟩

/-- Any box `floodFill` produces from an in-bounds start pixel satisfies the
(corrected) raster-bounds estimate. -/
lemma floodFill_box_bounds {r : Raster} {startX startY : Nat}
    {visited : List Bool} {box : Box}
    (hx : startX < r.width) (hy : startY < r.height)
    (hbox : (floodFill r startX startY visited).1 = some box) :
    0 ≤ box.x ∧ 0 ≤ box.y ∧
    box.width ≤ (r.width : Int) ∧ box.height ≤ (r.height : Int) ∧
    box.x + box.width ≤ (r.width : Int) + 1 ∧
    box.y + box.height ≤ (r.height : Int) + 1 := by
  have hb := fillLoop_bounded r (r.width * r.height + 1)
    { stack := [(startX, startY)],
      visited := visited.set (startY * r.width + startX) true,
      minX := startX, maxX := startX, minY := startY, maxY := startY,
      pixelCount := 0 }
    ⟨by intro p hp; simp at hp; subst hp; exact ⟨hx, hy⟩,
     le_refl _, hx, le_refl _, hy⟩
  simp only [floodFill] at hbox
  split at hbox
  · exact absurd hbox (by simp)
  · simp only [Option.some.injEq] at hbox
    subst hbox
    obtain ⟨-, h1, h2, h3, h4⟩ := hb
    simp only [detectionPadding]
    refine ⟨?_, ?_, ?_, ?_, ?_, ?_⟩ <;> omega

lemma foldl_scanRow_bounds (r : Raster) (y : Nat) (hy : y < r.height) :
    ∀ (xs : List Nat) (acc : List Bool × List Box),
      (∀ x ∈ xs, x < r.width) →
      (∀ b ∈ acc.2,
        0 ≤ b.x ∧ 0 ≤ b.y ∧
        b.width ≤ (r.width : Int) ∧ b.height ≤ (r.height : Int) ∧
        b.x + b.width ≤ (r.width : Int) + 1 ∧
        b.y + b.height ≤ (r.height : Int) + 1) →
      ∀ b ∈ (xs.foldl (scanStep r y) acc).2,
        0 ≤ b.x ∧ 0 ≤ b.y ∧
        b.width ≤ (r.width : Int) ∧ b.height ≤ (r.height : Int) ∧
        b.x + b.width ≤ (r.width : Int) + 1 ∧
        b.y + b.height ≤ (r.height : Int) + 1
  | [], acc, _, hacc => hacc
  | x :: xs, acc, hxs, hacc => by
    rw [List.foldl_cons]
    apply foldl_scanRow_bounds r y hy xs _ (fun z hz => hxs z (List.mem_cons_of_mem _ hz))
    intro b hb
    simp only [scanStep] at hb
    split at hb
    · split at hb
      · simp only [List.mem_append] at hb
        rcases hb with hb | hb
        · exact hacc b hb
        · match hfb : (floodFill r x y acc.1).1 with
          | some box =>
            rw [hfb] at hb
            simp only [Option.toList_some, List.mem_singleton] at hb
            subst hb
            exact floodFill_box_bounds (hxs x (List.mem_cons_self _ _)) hy hfb
          | none => rw [hfb] at hb; simp at hb
      · exact hacc b hb
    · exact hacc b hb

/-- C2 (amended): every box produced by the region detector satisfies
`x ≥ 0`, `y ≥ 0`, `width ≤ W`, `height ≤ H`, `x + width ≤ W + 1` and
`y + height ≤ H + 1`.  The claimed bound `x + width ≤ W` fails: the
clamping `width = min(W, maxX-minX+3)` bounds the width but not the right
edge, so the 1-pixel detection padding can push the box one pixel past the
right (or bottom) edge of the raster. -/
theorem detectRegions_bounds (r : Raster) :
    ∀ box ∈ detectRegions r,
      0 ≤ box.x ∧ 0 ≤ box.y ∧
      box.width ≤ (r.width : Int) ∧ box.height ≤ (r.height : Int) ∧
      box.x + box.width ≤ (r.width : Int) + 1 ∧
      box.y + box.height ≤ (r.height : Int) + 1 := by
  intro box hbox
  unfold detectRegions at hbox
  revert hbox
  have main : ∀ (ys : List Nat) (acc : List Bool × List Box),
      (∀ z ∈ ys, z < r.height) →
      (∀ b ∈ acc.2,
        0 ≤ b.x ∧ 0 ≤ b.y ∧
        b.width ≤ (r.width : Int) ∧ b.height ≤ (r.height : Int) ∧
        b.x + b.width ≤ (r.width : Int) + 1 ∧
        b.y + b.height ≤ (r.height : Int) + 1) →
      ∀ b ∈ (ys.foldl
          (fun acc y => (List.range r.width).foldl (scanStep r y) acc) acc).2,
        0 ≤ b.x ∧ 0 ≤ b.y ∧
        b.width ≤ (r.width : Int) ∧ b.height ≤ (r.height : Int) ∧
        b.x + b.width ≤ (r.width : Int) + 1 ∧
        b.y + b.height ≤ (r.height : Int) + 1 := by
    intro ys
    induction ys with
    | nil => exact fun acc _ hacc => hacc
    | cons z zs ih =>
      intro acc hys hacc
      rw [List.foldl_cons]
      apply ih _ (fun w hw => hys w (List.mem_cons_of_mem _ hw))
      exact foldl_scanRow_bounds r z (hys z (List.mem_cons_self _ _))
        (List.range r.width) acc (fun w hw => List.mem_range.mp hw) hacc
  exact fun hbox => main (List.range r.height) _
    (fun w hw => List.mem_range.mp hw) (by simp) box hbox

/-- The raster-bounds predicate asserted by the original claim C2. -/
def boxWithinRaster (r : Raster) (b : Box) : Bool :=
  decide (0 ≤ b.x) && decide (0 ≤ b.y) &&
  decide (b.x + b.width ≤ (r.width : Int)) &&
  decide (b.y + b.height ≤ (r.height : Int))

/-- A 3×50 raster whose opaque pixels form the full rightmost column
(x = 2): a 50-pixel component touching the right edge. -/
def c2Raster : Raster :=
  ⟨3, 50, (List.replicate 50 [0, 0, 0, 0, 0, 0, 0, 0, 0, 0, 0, 255]).flatten⟩

set_option maxRecDepth 20000 in
/-- Counterexample to C2 as stated: on `c2Raster` the detector returns the
single box (x=1, y=0, 3×50), and `x + width = 4 > 3 = W` — the padded box
sticks one pixel out of the raster on the right. -/
theorem detectRegions_not_within_raster :
    detectRegions c2Raster = [⟨1, 0, 3, 50⟩] ∧
    (detectRegions c2Raster).all (boxWithinRaster c2Raster) = false := by
  decide

set_option maxRecDepth 20000 in
/-- Witness for C2 (amended) at the concrete raster `c2Raster` and its
detected box. -/
theorem detectRegions_bounds_witness :
    0 ≤ (⟨1, 0, 3, 50⟩ : Box).x ∧ 0 ≤ (⟨1, 0, 3, 50⟩ : Box).y ∧
    (⟨1, 0, 3, 50⟩ : Box).width ≤ (c2Raster.width : Int) ∧
    (⟨1, 0, 3, 50⟩ : Box).height ≤ (c2Raster.height : Int) ∧
    (⟨1, 0, 3, 50⟩ : Box).x + (⟨1, 0, 3, 50⟩ : Box).width ≤ (c2Raster.width : Int) + 1 ∧
    (⟨1, 0, 3, 50⟩ : Box).y + (⟨1, 0, 3, 50⟩ : Box).height ≤ (c2Raster.height : Int) + 1 :=
  detectRegions_bounds c2Raster ⟨1, 0, 3, 50⟩ (by decide)

/-! ## The sprite compositor: the verbatim branch of `cropImage` -/

/-- Sampling a raster at integer coordinates: inside the raster the stored
RGBA bytes, outside fully transparent (the drawn region never reads outside
the source; a canvas is transparent black where nothing was drawn). -/
def rasterPixel (r : Raster) (x y : Int) : Nat × Nat × Nat × Nat :=
  if 0 ≤ x ∧ x < (r.width : Int) ∧ 0 ≤ y ∧ y < (r.height : Int) then
    (r.data.getD (getIndex r.width x.toNat y.toNat) 0,
     r.data.getD (getIndex r.width x.toNat y.toNat + 1) 0,
     r.data.getD (getIndex r.width x.toNat y.toNat + 2) 0,
     r.data.getD (getIndex r.width x.toNat y.toNat + 3) 0)
  else (0, 0, 0, 0)

/-- The output canvas of `cropImage`, as decoded pixels: its dimensions and
its pixel sampler. -/
structure OutImage where
  width : Int
  height : Int
  pixel : Int → Int → Nat × Nat × Nat × Nat

/-- The non-homogenize (verbatim) branch of `cropImage`: a fresh canvas of
`(box.width + 2*margin) × (box.height + 2*margin)` with `margin = 2`,
initially fully transparent, into which
`ctx.drawImage(source, box.x, box.y, box.width, box.height, 2, 2,
box.width, box.height)` copies the source box region unscaled at offset
(2,2); `toBlob(..., 'image/png')` then encodes it losslessly, so the
decoded output has exactly these pixels.  (The homogenized branch resamples
through the canvas's interpolation and is not modelled here.) -/
def cropImageVerbatim (src : Raster) (box : Box) : OutImage :=
  let margin : Int := 2
  { width := box.width + margin * 2
    height := box.height + margin * 2
    pixel := fun px py =>
      if margin ≤ px ∧ px < margin + box.width ∧
          margin ≤ py ∧ py < margin + box.height then
        rasterPixel src (box.x + (px - margin)) (box.y + (py - margin))
      else (0, 0, 0, 0) }

/-- C3 (amended): in verbatim mode a box of width 30 and height 40 yields
an output of exactly 34×44 — not 34×38 as the claim states — with the
source box's pixels copied unscaled starting at offset (2,2). -/
theorem cropImageVerbatim_30_40 (src : Raster) (box : Box)
    (hw : box.width = 30) (hh : box.height = 40) :
    (cropImageVerbatim src box).width = 34 ∧
    (cropImageVerbatim src box).height = 44 ∧
    ∀ dx dy : Int, 0 ≤ dx → dx < 30 → 0 ≤ dy → dy < 40 →
      (cropImageVerbatim src box).pixel (2 + dx) (2 + dy) =
        rasterPixel src (box.x + dx) (box.y + dy) := by
  refine ⟨?_, ?_, ?_⟩
  · simp only [cropImageVerbatim, hw]; norm_num
  · simp only [cropImageVerbatim, hh]; norm_num
  · intro dx dy h1 h2 h3 h4
    simp only [cropImageVerbatim]
    rw [if_pos (by rw [hw, hh]; omega)]
    rw [show (2 : Int) + dx - 2 = dx from by ring,
      show (2 : Int) + dy - 2 = dy from by ring]

/-- Witness for C3 (amended) at a concrete source and box. -/
theorem cropImageVerbatim_30_40_witness :
    (cropImageVerbatim ⟨1, 1, [9, 8, 7, 6]⟩ ⟨0, 0, 30, 40⟩).width = 34 ∧
    (cropImageVerbatim ⟨1, 1, [9, 8, 7, 6]⟩ ⟨0, 0, 30, 40⟩).pixel (2 + 0) (2 + 0) =
      rasterPixel ⟨1, 1, [9, 8, 7, 6]⟩ ((⟨0, 0, 30, 40⟩ : Box).x + 0)
        ((⟨0, 0, 30, 40⟩ : Box).y + 0) :=
  ⟨(cropImageVerbatim_30_40 ⟨1, 1, [9, 8, 7, 6]⟩ ⟨0, 0, 30, 40⟩ rfl rfl).1,
   (cropImageVerbatim_30_40 ⟨1, 1, [9, 8, 7, 6]⟩ ⟨0, 0, 30, 40⟩ rfl rfl).2.2
     0 0 le_rfl (by decide) le_rfl (by decide)⟩

/-- Counterexample to C3 as stated: the verbatim output for a 30×40 box is
34×44 pixels, not 34×38 — `box.height + 4 = 44`. -/
theorem cropImageVerbatim_30_40_height_not_38 :
    (cropImageVerbatim ⟨0, 0, []⟩ ⟨0, 0, 30, 40⟩).width = 34 ∧
    (cropImageVerbatim ⟨0, 0, []⟩ ⟨0, 0, 30, 40⟩).height = 44 ∧
    ¬ (cropImageVerbatim ⟨0, 0, []⟩ ⟨0, 0, 30, 40⟩).height = 38 := by
  refine ⟨by norm_num [cropImageVerbatim], by norm_num [cropImageVerbatim], ?_⟩
  norm_num [cropImageVerbatim]

/-! ## Run orchestration: the `process` effect of `App.tsx` -/

/-- Per-sprite status from `src/types.ts` (`Asset.status`). -/
inductive SpriteStatus
  | pending
  | naming
  | ready
  | error
deriving DecidableEq

/-- The fields of an `Asset` relevant to the processing run: the default
name `item_<index+1>`, the encoded output blob, and the status (created as
`pending`). -/
structure PAsset (α : Type) where
  finalName : String
  blob : α
  status : SpriteStatus

/-- Outcome of the `process` effect in `App.tsx`: zero boxes (alert and
back to the settings step); a rejection caught by the `try/catch` (alert,
back to the upload step, no assets kept); or the review step with the
created assets. -/
inductive ProcessOutcome (α : Type)
  | noSprites
  | failed
  | review (assets : List (PAsset α))

/-- The asset-creation part of the `process` effect in `App.tsx`,
abstracted over the per-box crop/encode step `crop` (the `cropImage`
promise, which rejects with an encoding error when `toBlob` produces no
blob).  `promiseAll` below renders `Promise.all` over
`boxes.map(cropImage ...)`: it rejects with the first rejection and
otherwise resolves with all results in order. -/
def promiseAll {ε α : Type} (f : Box → Except ε α) : List Box → Except ε (List α)
  | [] => Except.ok []
  | b :: rest =>
    match f b with
    | Except.error e => Except.error e
    | Except.ok x =>
      match promiseAll f rest with
      | Except.error e => Except.error e
      | Except.ok xs => Except.ok (x :: xs)

def process {ε α : Type} (boxes : List Box) (crop : Box → Except ε α) :
    ProcessOutcome α :=
  if boxes.length = 0 then ProcessOutcome.noSprites
  else
    match promiseAll crop boxes with
    | Except.error _ => ProcessOutcome.failed
    | Except.ok blobs => ProcessOutcome.review
        (blobs.enum.map fun p =>
          { finalName := "item_" ++ toString (p.1 + 1),
            blob := p.2, status := SpriteStatus.pending })

lemma promiseAll_error_of_mem {ε α : Type} (crop : Box → Except ε α) :
    ∀ boxes : List Box, (∃ b ∈ boxes, ∃ e, crop b = Except.error e) →
      ∃ e, promiseAll crop boxes = Except.error e
  | [], h => by simp at h
  | b :: rest, h => by
    match hc : crop b with
    | Except.error e => exact ⟨e, by simp [promiseAll, hc]⟩
    | Except.ok x =>
      obtain ⟨c, hcmem, e, he⟩ := h
      have hcr : c ∈ rest := by
        rcases List.mem_cons.mp hcmem with rfl | hcr
        · rw [hc] at he; exact absurd he (by simp)
        · exact hcr
      obtain ⟨e', he'⟩ := promiseAll_error_of_mem crop rest ⟨c, hcr, e, he⟩
      exact ⟨e', by simp [promiseAll, hc, he']⟩

/-- C4 (amended): if the crop/encode step of any sprite fails, the whole
run fails — the `Promise.all` rejection lands in the `catch`, the app
alerts and returns to the upload step, and no sprite is produced.  The
per-sprite isolation the claim describes (mark that sprite `error`, keep
the rest) does not exist in the code. -/
theorem process_fails_whole_run {ε α : Type} (boxes : List Box)
    (crop : Box → Except ε α) (hne : boxes ≠ [])
    (hfail : ∃ b ∈ boxes, ∃ e, crop b = Except.error e) :
    process boxes crop = ProcessOutcome.failed := by
  unfold process
  rw [if_neg (fun h => hne (List.length_eq_zero.mp h))]
  obtain ⟨e, he⟩ := promiseAll_error_of_mem crop boxes hfail
  rw [he]

/-- Witness for C4 (amended) at a concrete two-box run whose first crop
fails. -/
theorem process_fails_whole_run_witness :
    process [⟨0, 0, 1, 1⟩, ⟨5, 5, 1, 1⟩]
      (fun b => if b.x = 0 then Except.error () else Except.ok (0 : Nat)) =
      ProcessOutcome.failed :=
  process_fails_whole_run _ _ (by simp)
    ⟨⟨0, 0, 1, 1⟩, by simp, (), by simp⟩

def isReview {α : Type} : ProcessOutcome α → Bool
  | ProcessOutcome.review _ => true
  | _ => false

/-- Counterexample to C4 as stated: two boxes, the first crop fails with an
encoding error while the second succeeds; the run does NOT continue — the
outcome is the aborted-run state (upload step, no assets), not a review
containing the surviving sprite. -/
theorem process_encoding_failure_aborts :
    process [⟨0, 0, 1, 1⟩, ⟨5, 5, 1, 1⟩]
      (fun b => if b.x = 0 then Except.error () else Except.ok (0 : Nat)) =
      ProcessOutcome.failed ∧
    isReview (process [⟨0, 0, 1, 1⟩, ⟨5, 5, 1, 1⟩]
      (fun b => if b.x = 0 then Except.error () else Except.ok (0 : Nat))) = false :=
  ⟨rfl, rfl⟩

/-! ## The naming collaborator (`identifyAsset`) and `queueAiNaming` -/

/-- The outcome of one call to the external naming collaborator, as
observed inside `identifyAsset`: the call may throw or reject anywhere
before a response (missing API key, blob decode failure, API error), or
resolve with an optional `response.text`. -/
inductive CollabResult
  | threw
  | ok (text : Option String)

/-- JS `String.prototype.trim()`: strip leading and trailing whitespace. -/
def jsTrim (s : String) : String :=
  (((s.toList.dropWhile Char.isWhitespace).reverse.dropWhile
    Char.isWhitespace).reverse).asString

/-- JS `replace(/c/g, '')` for a single character `c`: remove every
occurrence. -/
def removeChar (c : Char) (s : String) : String :=
  (s.toList.filter (fun d => d ≠ c)).asString

/-- `identifyAsset` from `src/services/geminiService.ts`, as a function of
the collaborator call's outcome: any thrown error is caught and mapped to
the literal `'unknown_item'`; on success `response.text?.trim() ||
'unknown_item'` falls back when the text is missing or trims to empty, and
the result is cleaned of backticks (`\x60`) and newlines and trimmed
again. -/
def identifyAsset (res : CollabResult) : String :=
  match res with
  | CollabResult.threw => "unknown_item"
  | CollabResult.ok t =>
    let text :=
      match t with
      | none => "unknown_item"
      | some s => if jsTrim s = "" then "unknown_item" else jsTrim s
    jsTrim (removeChar '\n' (removeChar '\x60' text))

/-- A sprite as tracked by the naming queue (the fields of `Asset` that
`queueAiNaming` updates, plus an id to address the collaborator call). -/
structure NAsset where
  id : Nat
  originalName : String
  finalName : String
  status : SpriteStatus

/-- The per-asset step inside a `queueAiNaming` batch: `await
identifyAsset(asset.blob)`, then store the name as both `originalName` and
`finalName` and advance the status to `ready`.  (The transient `naming`
status set just before the call is overwritten by this update.) -/
def nameAsset (call : Nat → CollabResult) (a : NAsset) : NAsset :=
  let n := identifyAsset (call a.id)
  { a with originalName := n, finalName := n, status := SpriteStatus.ready }

/-- `queueAiNaming` from `App.tsx`: slices of `BATCH_SIZE = 3` assets,
`Promise.all` per batch, and a 500 ms pause between batches (the pause
affects timing only, never the final state). -/
def queueAiNaming (call : Nat → CollabResult) : List NAsset → List NAsset
  | [] => []
  | a :: rest =>
    ((a :: rest).take 3).map (nameAsset call) ++
      queueAiNaming call ((a :: rest).drop 3)
termination_by l => l.length
decreasing_by simp only [List.length_drop, List.length_cons]; omega

lemma queueAiNaming_eq_map (call : Nat → CollabResult) :
    ∀ assets : List NAsset,
      queueAiNaming call assets = assets.map (nameAsset call)
  | [] => by rw [queueAiNaming]; rfl
  | a :: rest => by
    rw [queueAiNaming, queueAiNaming_eq_map call ((a :: rest).drop 3),
      ← List.map_append, List.take_append_drop]
termination_by assets => assets.length
decreasing_by simp only [List.length_drop, List.length_cons]; omega

/-- Failure of one collaborator call in the sense of C8: the call threw or
rejected, or resolved without any text. -/
def collabFailed : CollabResult → Prop
  | CollabResult.threw => True
  | CollabResult.ok none => True
  | CollabResult.ok (some _) => False

/-- C8: the naming queue processes every sprite (batching never drops or
blocks one); every sprite's status advances to `ready`; and a sprite whose
collaborator call failed (threw, rejected, or returned no text) gets the
literal fallback name `'unknown_item'` instead of a propagated error. -/
theorem queueAiNaming_failure_isolated (call : Nat → CollabResult)
    (assets : List NAsset) :
    queueAiNaming call assets = assets.map (nameAsset call) ∧
    (∀ a ∈ assets, (nameAsset call a).status = SpriteStatus.ready) ∧
    (∀ a ∈ assets, collabFailed (call a.id) →
      (nameAsset call a).finalName = "unknown_item") := by
  refine ⟨queueAiNaming_eq_map call assets, fun a _ => rfl, ?_⟩
  intro a _ hfail
  show identifyAsset (call a.id) = "unknown_item"
  match hc : call a.id with
  | CollabResult.threw => rfl
  | CollabResult.ok none => decide
  | CollabResult.ok (some s) =>
    rw [hc] at hfail
    exact absurd hfail (by simp [collabFailed])

/-- Witness for C8 at a concrete one-sprite batch whose call throws. -/
theorem queueAiNaming_failure_isolated_witness :
    (nameAsset (fun _ => CollabResult.threw)
      ⟨0, "", "item_1", SpriteStatus.pending⟩).status = SpriteStatus.ready ∧
    (nameAsset (fun _ => CollabResult.threw)
      ⟨0, "", "item_1", SpriteStatus.pending⟩).finalName = "unknown_item" :=
  ⟨(queueAiNaming_failure_isolated (fun _ => CollabResult.threw)
      [⟨0, "", "item_1", SpriteStatus.pending⟩]).2.1 _ (by simp),
   (queueAiNaming_failure_isolated (fun _ => CollabResult.threw)
      [⟨0, "", "item_1", SpriteStatus.pending⟩]).2.2 _ (by simp) trivial⟩
